import Mathlib

/-!
Shallow embedding of `inicpp::option` (src/src/option.h) and proofs of the
specification's claims about it.

The C++ class `option` owns a name, a type tag (`option_type type_`) and an
ordered sequence of type-erased value cells
(`std::vector<std::unique_ptr<option_holder>> values_`).  Each cell is an
`option_value<ValueType>` holding one concrete value; the owning option
recovers it with `dynamic_cast<option_value<ValueType>*>`, which yields a
null pointer exactly when the stored cell's value type differs from the
requested one.

In the embedding a cell is an inductive `Cell` over the five supported
kinds, the template parameter `ValueType` is represented by its kind
`option_type` (the C++ `get_enum_type<ValueType>()` mapping), and
`dynCast` models the `dynamic_cast`: it returns `some v` when the cell
was built at the requested kind and `none` otherwise.  Mutating methods
become state-passing functions; a thrown exception becomes an `Except`
error that carries the receiver's state at the throw site, so that claims
about "no partial mutation before failing" are statable.
-/

set_option autoImplicit false

/-- The five supported kinds, from the `option_type` enum (`types.h`):
boolean, signed integer, unsigned integer, floating point, string. -/
inductive option_type where
  | boolean_e
  | signed_e
  | unsigned_e
  | float_e
  | string_e
  deriving DecidableEq, Repr

/-- The concrete Lean type carrying values of each kind.  `boolean_ini_t`
is `bool`, `signed_ini_t` is a signed integer, `unsigned_ini_t` an
unsigned integer, `float_ini_t` a floating-point number (modelled by `Rat`:
the claims only store and compare these values, never compute with them),
`string_ini_t` a string. -/
abbrev KindType : option_type → Type
  | .boolean_e => Bool
  | .signed_e => Int
  | .unsigned_e => Nat
  | .float_e => Rat
  | .string_e => String

instance instKindTypeDecEq : (K : option_type) → DecidableEq (KindType K)
  | .boolean_e => inferInstance
  | .signed_e => inferInstance
  | .unsigned_e => inferInstance
  | .float_e => inferInstance
  | .string_e => inferInstance

instance instKindTypeReprBool : Repr (KindType .boolean_e) := inferInstanceAs (Repr Bool)

/-- A type-erased value cell: the C++ `option_value<ValueType>` object seen
through its `option_holder` base.  The constructor records the value type
the cell was instantiated at together with the stored value. -/
inductive Cell where
  | booleanV (b : Bool)
  | signedV (i : Int)
  | unsignedV (n : Nat)
  | floatV (q : Rat)
  | stringV (s : String)
  deriving DecidableEq, Repr

/-- The kind a cell was instantiated at. -/
def Cell.kind : Cell → option_type
  | .booleanV _ => .boolean_e
  | .signedV _ => .signed_e
  | .unsignedV _ => .unsigned_e
  | .floatV _ => .float_e
  | .stringV _ => .string_e

/-- Build the cell `option_value<ValueType>(value)` for the kind
representing `ValueType`. -/
def mkCell : (K : option_type) → KindType K → Cell
  | .boolean_e, b => .booleanV b
  | .signed_e, i => .signedV i
  | .unsigned_e, n => .unsignedV n
  | .float_e, q => .floatV q
  | .string_e, s => .stringV s

/-- `dynamic_cast<option_value<ValueType>*>` on a cell: recovers the stored
value when the cell's instantiation kind matches the requested kind, and
returns `none` (the null pointer) otherwise. -/
def dynCast : (K : option_type) → Cell → Option (KindType K)
  | .boolean_e, .booleanV b => some b
  | .signed_e, .signedV i => some i
  | .unsigned_e, .unsignedV n => some n
  | .float_e, .floatV q => some q
  | .string_e, .stringV s => some s
  | .boolean_e, _ => none
  | .signed_e, _ => none
  | .unsigned_e, _ => none
  | .float_e, _ => none
  | .string_e, _ => none

/-- The two error kinds thrown by the typed interface (`exception.h`):
`not_found_exception` carries the offending index, `bad_cast_exception`
a message. -/
inductive IniError where
  | not_found_exception (index : Nat)
  | bad_cast_exception (msg : String)
  deriving DecidableEq, Repr

/-- State of an `inicpp::option`: its name, its type tag and its ordered
sequence of value cells.  (The `option_schema_` pointer plays no part in
the claims and is omitted.) -/
structure IniOption where
  name_ : String
  type_ : option_type
  values_ : List Cell
  deriving DecidableEq, Repr

/-- `get_enum_type<ValueType>()` from `types.h`: the enum member naming the
value type.  With the template parameter represented by its kind this is
the identity. -/
def get_enum_type (K : option_type) : option_type := K

/-- `option::get<ValueType>() const` (option.h lines 194-205): throws
`not_found_exception(0)` on an empty sequence, then downcasts cell 0 and
throws `bad_cast_exception` when the cast yields null, else returns the
stored value. -/
def IniOption.get (K : option_type) (o : IniOption) : Except IniError (KindType K) :=
  match o.values_ with
  | [] => .error (.not_found_exception 0)
  | v :: _ =>
    match dynCast K v with
    | none => .error (.bad_cast_exception "Cannot cast to requested type")
    | some x => .ok x

/-- The loop of `option::get_list`: downcast every cell in order, throwing
`bad_cast_exception` at the first cell whose cast yields null, and collect
the recovered values in order. -/
def getListLoop (K : option_type) : List Cell → Except (IniError × IniOption) (List (KindType K)) → IniOption → Except (IniError × IniOption) (List (KindType K))
  | [], acc, _ => acc
  | v :: rest, acc, o =>
    match acc with
    | .error e => .error e
    | .ok xs =>
      match dynCast K v with
      | none => .error (.bad_cast_exception "Cannot cast to requested type", o)
      | some x => getListLoop K rest (.ok (xs ++ [x])) o

/-- `option::get_list<ValueType>() const` (option.h lines 229-244): throws
`not_found_exception(0)` on an empty sequence, else builds the result list
front to back, throwing `bad_cast_exception` at the first failing downcast
(the partial result vector is a local, discarded on throw).  The method is
`const`; the state paired with an error is the receiver's unchanged state. -/
def IniOption.get_list (K : option_type) (o : IniOption) : Except (IniError × IniOption) (List (KindType K)) :=
  match o.values_ with
  | [] => .error (.not_found_exception 0, o)
  | _ => getListLoop K o.values_ (.ok []) o

/-- `option::add_to_list<ValueType>(value)` (option.h lines 251-258): throws
`bad_cast_exception` when `get_enum_type<ValueType>() != type_` — before
any mutation — else pushes a fresh cell at the back. -/
def IniOption.add_to_list (K : option_type) (value : KindType K) (o : IniOption) : Except (IniError × IniOption) IniOption :=
  if get_enum_type K ≠ o.type_ then
    .error (.bad_cast_exception "Cannot cast to requested type", o)
  else
    .ok { o with values_ := o.values_ ++ [mkCell K value] }

/-- `option::add_to_list<ValueType>(value, position)` (option.h lines
267-278): throws `bad_cast_exception` on a kind mismatch, then
`not_found_exception(position)` when `position > values_.size()` — both
before any mutation — else inserts a fresh cell at `position`
(`values_.insert(values_.begin() + position, …)`). -/
def IniOption.add_to_list_pos (K : option_type) (value : KindType K) (position : Nat) (o : IniOption) : Except (IniError × IniOption) IniOption :=
  if get_enum_type K ≠ o.type_ then
    .error (.bad_cast_exception "Cannot cast to requested type", o)
  else if position > o.values_.length then
    .error (.not_found_exception position, o)
  else
    .ok { o with values_ := o.values_.take position ++ [mkCell K value] ++ o.values_.drop position }

/-- The loop of `option::set_list`: append each element of the list in
order via `add_to_list`.  An exception from an append propagates, leaving
the partially rebuilt state. -/
def setListLoop (K : option_type) : List (KindType K) → IniOption → Except (IniError × IniOption) IniOption
  | [], s => .ok s
  | item :: rest, s =>
    match IniOption.add_to_list K item s with
    | .error e => .error e
    | .ok s' => setListLoop K rest s'

/-- `option::set_list<ValueType>(list)` (option.h lines 213-221): clears
`values_`, retags `type_` to `get_enum_type<ValueType>()`, then appends
every element of `list` in order via `add_to_list`. -/
def IniOption.set_list (K : option_type) (list : List (KindType K)) (o : IniOption) : Except (IniError × IniOption) IniOption :=
  setListLoop K list { o with values_ := [], type_ := get_enum_type K }

/-- The loop of `option::remove_from_list`: walk the cells in order,
downcast each one and dereference the result with no null check
(`ptr->get()`), erase the first cell whose stored value equals `value` and
stop.  A `none` result models the undefined behaviour of dereferencing a
null pointer when a downcast fails. -/
def removeLoop (K : option_type) (value : KindType K) : List Cell → Option (List Cell)
  | [] => some []
  | c :: rest =>
    match dynCast K c with
    | none => none
    | some x =>
      if x = value then some rest
      else (removeLoop K value rest).map (fun l => c :: l)

/-- `option::remove_from_list<ValueType>(value)` (option.h lines 285-298):
throws `bad_cast_exception` when `get_enum_type<ValueType>() != type_` —
before any mutation — else runs the erase-first-match loop.  `.ok none`
models the loop's undefined behaviour on a failed downcast. -/
def IniOption.remove_from_list (K : option_type) (value : KindType K) (o : IniOption) : Except (IniError × IniOption) (Option IniOption) :=
  if get_enum_type K ≠ o.type_ then
    .error (.bad_cast_exception "Cannot cast to requested type", o)
  else
    .ok ((removeLoop K value o.values_).map (fun l => { o with values_ := l }))

/-- Modelled from the spec: the body of `option::remove_from_list_pos` is
declared in option.h (line 305) but defined in a source file outside the
header.  Spec §4.4: "removes element at `position`.  Fails with `NotFound`
if `position ≥ size`." -/
def IniOption.remove_from_list_pos (position : Nat) (o : IniOption) : Except (IniError × IniOption) IniOption :=
  if position ≥ o.values_.length then
    .error (.not_found_exception position, o)
  else
    .ok { o with values_ := o.values_.take position ++ o.values_.drop (position + 1) }

/-- The receiver's state when the call returns, whether normally or by
throwing. -/
def outState (o : Except (IniError × IniOption) IniOption) : IniOption :=
  match o with
  | .ok s => s
  | .error (_, s) => s

/-- Homogeneity invariant from spec §3: every cell's kind equals the
option's `type` tag (vacuously true when the sequence is empty). -/
def homog (o : IniOption) : Prop :=
  ∀ c ∈ o.values_, c.kind = o.type_

instance (o : IniOption) : Decidable (homog o) :=
  inferInstanceAs (Decidable (∀ c ∈ o.values_, c.kind = o.type_))


/-! ### Helper lemmas about cells and downcasts -/

theorem dynCast_mkCell (K : option_type) (x : KindType K) :
    dynCast K (mkCell K x) = some x := by
  cases K <;> rfl

theorem kind_mkCell (K : option_type) (x : KindType K) :
    (mkCell K x).kind = K := by
  cases K <;> rfl

theorem dynCast_of_kind_ne (K : option_type) (c : Cell) (h : c.kind ≠ K) :
    dynCast K c = none := by
  cases K <;> cases c <;> first | rfl | exact absurd rfl h

theorem exists_mkCell_of_kind (K : option_type) (c : Cell) (h : c.kind = K) :
    ∃ x, c = mkCell K x := by
  cases K <;> cases c <;> first | exact ⟨_, rfl⟩ | simp [Cell.kind] at h

theorem mkCell_inj (K : option_type) {x y : KindType K} :
    mkCell K x = mkCell K y ↔ x = y := by
  cases K <;> simp [mkCell]

/-! ### Helper lemmas about the loops -/

theorem getListLoop_map (K : option_type) (l : List (KindType K))
    (acc : List (KindType K)) (o : IniOption) :
    getListLoop K (l.map (mkCell K)) (.ok acc) o = .ok (acc ++ l) := by
  induction l generalizing acc with
  | nil => simp [getListLoop]
  | cons x xs ih => simp [getListLoop, dynCast_mkCell, ih]

theorem getListLoop_error_state (K : option_type) (l : List Cell)
    (xs : List (KindType K)) (o : IniOption) (e : IniError) (s : IniOption)
    (h : getListLoop K l (.ok xs) o = .error (e, s)) : s = o := by
  induction l generalizing xs with
  | nil => simp [getListLoop] at h
  | cons c rest ih =>
    rw [getListLoop] at h
    cases hc : dynCast K c with
    | none => rw [hc] at h; exact (Prod.mk.injEq .. ▸ (Except.error.injEq .. ▸ h)).2.symm
    | some x => rw [hc] at h; exact ih _ h

theorem setListLoop_ok (K : option_type) (l : List (KindType K)) (s : IniOption)
    (h : s.type_ = get_enum_type K) :
    setListLoop K l s = .ok { s with values_ := s.values_ ++ l.map (mkCell K) } := by
  induction l generalizing s with
  | nil => simp [setListLoop]
  | cons x xs ih =>
    rw [setListLoop, IniOption.add_to_list, if_neg (by simp [h])]
    show setListLoop K xs ⟨s.name_, s.type_, s.values_ ++ [mkCell K x]⟩ = _
    rw [ih ⟨s.name_, s.type_, s.values_ ++ [mkCell K x]⟩ h]
    simp

theorem set_list_eq (K : option_type) (l : List (KindType K)) (o : IniOption) :
    o.set_list K l = .ok ⟨o.name_, get_enum_type K, l.map (mkCell K)⟩ := by
  rw [IniOption.set_list, setListLoop_ok K l _ rfl]
  rfl

theorem removeLoop_eq_erase (K : option_type) (v : KindType K) (l : List Cell)
    (h : ∀ c ∈ l, c.kind = K) :
    removeLoop K v l = some (l.erase (mkCell K v)) := by
  induction l with
  | nil => rfl
  | cons c rest ih =>
    obtain ⟨x, rfl⟩ := exists_mkCell_of_kind K c (h c (by simp))
    have ih' := ih (fun c hc => h c (List.mem_cons_of_mem _ hc))
    by_cases hx : x = v
    · subst hx
      simp [removeLoop, dynCast_mkCell, List.erase_cons_head]
    · simp [removeLoop, dynCast_mkCell, hx, ih', List.erase_cons_tail, beq_iff_eq,
        mkCell_inj]

theorem homog_map (K : option_type) (nm : String) (l : List (KindType K)) :
    homog ⟨nm, K, l.map (mkCell K)⟩ := by
  intro c hc
  obtain ⟨x, _, rfl⟩ := List.mem_map.mp hc
  exact kind_mkCell K x

theorem get_list_of_map (K : option_type) (x : KindType K) (xs : List (KindType K))
    (nm : String) :
    IniOption.get_list K ⟨nm, K, (x :: xs).map (mkCell K)⟩ = .ok (x :: xs) := by
  have h := getListLoop_map K (x :: xs) [] ⟨nm, K, (x :: xs).map (mkCell K)⟩
  simpa [IniOption.get_list] using h

/-! ### Claims -/

/-- C3: on an option whose value sequence is empty, `get` and `get_list`
both fail with `not_found_exception` carrying the offending index 0, for
every requested kind. -/
theorem C3_empty_access (K : option_type) (o : IniOption) (h : o.values_ = []) :
    o.get K = .error (.not_found_exception 0) ∧
    o.get_list K = .error (.not_found_exception 0, o) := by
  constructor
  · simp [IniOption.get, h]
  · simp [IniOption.get_list, h]

theorem C3_empty_access_witness :
    IniOption.get .signed_e ⟨"opt", .signed_e, []⟩ = .error (.not_found_exception 0) ∧
    IniOption.get_list .signed_e ⟨"opt", .signed_e, []⟩
      = .error (.not_found_exception 0, ⟨"opt", .signed_e, []⟩) :=
  C3_empty_access .signed_e ⟨"opt", .signed_e, []⟩ rfl

/-- C1 as stated is false at the empty list: `set_list` of `[] : List String`
succeeds and leaves an empty value sequence, and the following `get_list`
does not return `[]` — it fails with `not_found_exception 0`. -/
theorem C1_counterexample :
    IniOption.set_list .string_e ([] : List String) ⟨"opt", .string_e, [.stringV "a"]⟩
      = .ok ⟨"opt", .string_e, []⟩ ∧
    IniOption.get_list .string_e ⟨"opt", .string_e, []⟩
      = .error (.not_found_exception 0, ⟨"opt", .string_e, []⟩) :=
  ⟨rfl, rfl⟩

/-- C1 (amended): for every supported kind K and every NON-EMPTY ordered
list L of K-typed values, `set_list K L` succeeds, and `get_list K` on the
resulting option returns exactly L, preserving the original order.  (On the
empty list `set_list` still succeeds but the subsequent `get_list` fails
with `not_found_exception 0`.) -/
theorem C1_round_trip (K : option_type) (L : List (KindType K)) (o : IniOption)
    (hne : L ≠ []) :
    o.set_list K L = .ok ⟨o.name_, K, L.map (mkCell K)⟩ ∧
    IniOption.get_list K ⟨o.name_, K, L.map (mkCell K)⟩ = .ok L := by
  refine ⟨set_list_eq K L o, ?_⟩
  cases L with
  | nil => exact absurd rfl hne
  | cons x xs => exact get_list_of_map K x xs o.name_

theorem C1_round_trip_witness :
    IniOption.set_list .string_e ["80", "443"] ⟨"ports", .string_e, []⟩
      = .ok ⟨"ports", .string_e, [.stringV "80", .stringV "443"]⟩ ∧
    IniOption.get_list .string_e ⟨"ports", .string_e, [.stringV "80", .stringV "443"]⟩
      = .ok ["80", "443"] :=
  C1_round_trip .string_e ["80", "443"] ⟨"ports", .string_e, []⟩ (by decide)

/-- C2: on an option whose type tag is K and whose cells all have kind K
(the homogeneity invariant), with a non-empty value sequence, requesting a
different kind Kp makes `get`, `get_list` and `add_to_list` all fail with
`bad_cast_exception`; none of them returns a value. -/
theorem C2_type_mismatch (K Kp : option_type) (o : IniOption) (v : KindType Kp)
    (htype : o.type_ = K) (hne : Kp ≠ K) (hinv : homog o) (hval : o.values_ ≠ []) :
    IniOption.get Kp o = .error (.bad_cast_exception "Cannot cast to requested type") ∧
    IniOption.get_list Kp o
      = .error (.bad_cast_exception "Cannot cast to requested type", o) ∧
    IniOption.add_to_list Kp v o
      = .error (.bad_cast_exception "Cannot cast to requested type", o) := by
  obtain ⟨c, rest, hcons⟩ : ∃ c rest, o.values_ = c :: rest := by
    cases hv : o.values_ with
    | nil => exact absurd hv hval
    | cons c rest => exact ⟨c, rest, rfl⟩
  have hck : c.kind = K := htype ▸ hinv c (hcons ▸ List.mem_cons_self c rest)
  have hcast : dynCast Kp c = none :=
    dynCast_of_kind_ne Kp c (fun hEq => hne ((hck ▸ hEq).symm))
  refine ⟨?_, ?_, ?_⟩
  · simp [IniOption.get, hcons, hcast]
  · simp [IniOption.get_list, hcons, getListLoop, hcast]
  · rw [IniOption.add_to_list, if_pos (by simpa [get_enum_type, htype] using hne)]

theorem C2_type_mismatch_witness :
    IniOption.get .signed_e ⟨"n", .string_e, [.stringV "x"]⟩
      = .error (.bad_cast_exception "Cannot cast to requested type") ∧
    IniOption.get_list .signed_e ⟨"n", .string_e, [.stringV "x"]⟩
      = .error (.bad_cast_exception "Cannot cast to requested type",
          ⟨"n", .string_e, [.stringV "x"]⟩) ∧
    IniOption.add_to_list .signed_e (1 : Int) ⟨"n", .string_e, [.stringV "x"]⟩
      = .error (.bad_cast_exception "Cannot cast to requested type",
          ⟨"n", .string_e, [.stringV "x"]⟩) :=
  C2_type_mismatch .string_e .signed_e ⟨"n", .string_e, [.stringV "x"]⟩ 1
    rfl (by decide) (by decide) (by decide)

theorem homog_of_subset {o o' : IniOption} (h : homog o) (hty : o'.type_ = o.type_)
    (hsub : ∀ c ∈ o'.values_, c ∈ o.values_) : homog o' := by
  intro c hc
  rw [hty]
  exact h c (hsub c hc)

theorem remove_from_list_ok (K : option_type) (o : IniOption) (v : KindType K)
    (hinv : homog o) (hK : get_enum_type K = o.type_) :
    o.remove_from_list K v
      = .ok (some { o with values_ := o.values_.erase (mkCell K v) }) := by
  have hloop := removeLoop_eq_erase K v o.values_
    (fun c hc => by rw [hinv c hc, ← hK]; rfl)
  rw [IniOption.remove_from_list, if_neg (not_not_intro hK), hloop]
  rfl

/-- C4: the homogeneity invariant — every stored cell's kind equals the
option's type tag — is preserved by every operation of the typed interface,
whether the operation succeeds or throws: `set_list`, `add_to_list` at the
end, `add_to_list` at a position, `remove_from_list` and
`remove_from_list_pos`. -/
theorem C4_invariant_preserved (o : IniOption) (hinv : homog o) :
    (∀ (K : option_type) (l : List (KindType K)),
      homog (outState (o.set_list K l))) ∧
    (∀ (K : option_type) (v : KindType K),
      homog (outState (o.add_to_list K v))) ∧
    (∀ (K : option_type) (v : KindType K) (p : Nat),
      homog (outState (o.add_to_list_pos K v p))) ∧
    (∀ (K : option_type) (v : KindType K) (r : Option IniOption),
      o.remove_from_list K v = .ok r → ∀ o' ∈ r, homog o') ∧
    (∀ (K : option_type) (v : KindType K) (e : IniError) (s : IniOption),
      o.remove_from_list K v = .error (e, s) → homog s) ∧
    (∀ p : Nat, homog (outState (o.remove_from_list_pos p))) := by
  refine ⟨?_, ?_, ?_, ?_, ?_, ?_⟩
  · intro K l
    rw [set_list_eq K l o]
    exact homog_map K o.name_ l
  · intro K v
    by_cases hK : get_enum_type K = o.type_
    · rw [IniOption.add_to_list, if_neg (not_not_intro hK)]
      intro c hc
      rcases List.mem_append.mp hc with h | h
      · exact hinv c h
      · simp only [List.mem_singleton] at h
        subst h
        rw [kind_mkCell, ← hK]
        rfl
    · rw [IniOption.add_to_list, if_pos hK]
      exact hinv
  · intro K v p
    by_cases hK : get_enum_type K = o.type_
    · by_cases hp : p > o.values_.length
      · rw [IniOption.add_to_list_pos, if_neg (not_not_intro hK), if_pos hp]
        exact hinv
      · rw [IniOption.add_to_list_pos, if_neg (not_not_intro hK), if_neg hp]
        intro c hc
        rcases List.mem_append.mp hc with h | h
        · rcases List.mem_append.mp h with h' | h'
          · exact hinv c (List.take_subset p o.values_ h')
          · simp only [List.mem_singleton] at h'
            subst h'
            rw [kind_mkCell, ← hK]
            rfl
        · exact hinv c (List.drop_subset p o.values_ h)
    · rw [IniOption.add_to_list_pos, if_pos hK]
      exact hinv
  · intro K v r hr o' ho'
    by_cases hK : get_enum_type K = o.type_
    · rw [remove_from_list_ok K o v hinv hK] at hr
      cases hr
      rw [Option.mem_def] at ho'
      cases ho'
      exact homog_of_subset hinv rfl
        (fun c hc => List.erase_subset (mkCell K v) o.values_ hc)
    · rw [IniOption.remove_from_list, if_pos hK] at hr
      cases hr
  · intro K v e s hs
    by_cases hK : get_enum_type K = o.type_
    · rw [remove_from_list_ok K o v hinv hK] at hs
      cases hs
    · rw [IniOption.remove_from_list, if_pos hK] at hs
      cases hs
      exact hinv
  · intro p
    by_cases hp : p ≥ o.values_.length
    · rw [IniOption.remove_from_list_pos, if_pos hp]
      exact hinv
    · rw [IniOption.remove_from_list_pos, if_neg hp]
      intro c hc
      rcases List.mem_append.mp hc with h | h
      · exact hinv c (List.take_subset p o.values_ h)
      · exact hinv c (List.drop_subset (p + 1) o.values_ h)

theorem C4_invariant_preserved_witness :
    homog (outState (IniOption.set_list .string_e ["a"]
      ⟨"n", .signed_e, [.signedV 3]⟩)) ∧
    homog (outState (IniOption.add_to_list .signed_e (7 : Int)
      ⟨"n", .signed_e, [.signedV 3]⟩)) ∧
    homog (outState (IniOption.add_to_list_pos .signed_e (7 : Int) 0
      ⟨"n", .signed_e, [.signedV 3]⟩)) ∧
    homog ⟨"n", .signed_e, ([] : List Cell)⟩ ∧
    homog (outState (IniOption.remove_from_list_pos 0
      ⟨"n", .signed_e, [.signedV 3]⟩)) := by
  have h := C4_invariant_preserved ⟨"n", .signed_e, [.signedV 3]⟩ (by decide)
  exact ⟨h.1 .string_e ["a"], h.2.1 .signed_e 7, h.2.2.1 .signed_e 7 0,
    h.2.2.2.1 .signed_e 3 (some ⟨"n", .signed_e, []⟩) rfl
      ⟨"n", .signed_e, []⟩ rfl,
    h.2.2.2.2.2 0⟩

/-- C5: `set_list K` yields exactly the state obtained by clearing the
value sequence, retagging the type to K and appending every list element
in order as a cell of kind K; and it is the only operation of the typed
interface that can change the type tag — both `add_to_list` overloads,
`remove_from_list` and `remove_from_list_pos` leave it untouched in every
outcome. -/
theorem C5_set_list_retags (o : IniOption) :
    (∀ (K : option_type) (l : List (KindType K)),
      o.set_list K l = .ok ⟨o.name_, get_enum_type K, l.map (mkCell K)⟩) ∧
    (∀ (K : option_type) (v : KindType K),
      (outState (o.add_to_list K v)).type_ = o.type_) ∧
    (∀ (K : option_type) (v : KindType K) (p : Nat),
      (outState (o.add_to_list_pos K v p)).type_ = o.type_) ∧
    (∀ (K : option_type) (v : KindType K) (r : Option IniOption),
      o.remove_from_list K v = .ok r → ∀ o' ∈ r, o'.type_ = o.type_) ∧
    (∀ (K : option_type) (v : KindType K) (e : IniError) (s : IniOption),
      o.remove_from_list K v = .error (e, s) → s.type_ = o.type_) ∧
    (∀ p : Nat, (outState (o.remove_from_list_pos p)).type_ = o.type_) := by
  refine ⟨fun K l => set_list_eq K l o, ?_, ?_, ?_, ?_, ?_⟩
  · intro K v
    by_cases hK : get_enum_type K = o.type_ <;>
      simp [IniOption.add_to_list, hK, outState]
  · intro K v p
    by_cases hK : get_enum_type K = o.type_ <;>
      by_cases hp : p > o.values_.length <;>
      simp [IniOption.add_to_list_pos, hK, hp, outState]
  · intro K v r hr o' ho'
    by_cases hK : get_enum_type K = o.type_
    · rw [IniOption.remove_from_list, if_neg (not_not_intro hK)] at hr
      cases hr
      rw [Option.mem_def, Option.map_eq_some'] at ho'
      obtain ⟨l, _, rfl⟩ := ho'
      rfl
    · rw [IniOption.remove_from_list, if_pos hK] at hr
      cases hr
  · intro K v e s hs
    by_cases hK : get_enum_type K = o.type_
    · rw [IniOption.remove_from_list, if_neg (not_not_intro hK)] at hs
      cases hs
    · rw [IniOption.remove_from_list, if_pos hK] at hs
      cases hs
      rfl
  · intro p
    by_cases hp : p ≥ o.values_.length <;>
      simp [IniOption.remove_from_list_pos, hp, outState]

/-- C6: `add_to_list(value, position)` appends when the position equals the
current size, inserts shifting later elements when it is smaller (the
prefix before the position is unchanged, the new cell sits at the position
and the old suffix follows it), fails with `bad_cast_exception` when the
value's kind differs from the option's type, and fails with
`not_found_exception` carrying the position when it exceeds the size. -/
theorem C6_add_to_list_pos (K : option_type) (o : IniOption) (v : KindType K)
    (p : Nat) :
    (get_enum_type K ≠ o.type_ →
      o.add_to_list_pos K v p
        = .error (.bad_cast_exception "Cannot cast to requested type", o)) ∧
    (get_enum_type K = o.type_ → p > o.values_.length →
      o.add_to_list_pos K v p = .error (.not_found_exception p, o)) ∧
    (get_enum_type K = o.type_ → p = o.values_.length →
      o.add_to_list_pos K v p
        = .ok { o with values_ := o.values_ ++ [mkCell K v] }) ∧
    (get_enum_type K = o.type_ → p ≤ o.values_.length →
      o.add_to_list_pos K v p = .ok { o with values_ := o.values_.take p ++ [mkCell K v] ++ o.values_.drop p } ∧
        (o.values_.take p ++ [mkCell K v] ++ o.values_.drop p).length
          = o.values_.length + 1 ∧
        (o.values_.take p ++ [mkCell K v] ++ o.values_.drop p).take p
          = o.values_.take p ∧
        (o.values_.take p ++ [mkCell K v] ++ o.values_.drop p)[p]?
          = some (mkCell K v) ∧
        (o.values_.take p ++ [mkCell K v] ++ o.values_.drop p).drop (p + 1)
          = o.values_.drop p) := by
  refine ⟨?_, ?_, ?_, ?_⟩
  · intro hK
    rw [IniOption.add_to_list_pos, if_pos hK]
  · intro hK hp
    rw [IniOption.add_to_list_pos, if_neg (not_not_intro hK), if_pos hp]
  · intro hK hp
    subst hp
    rw [IniOption.add_to_list_pos, if_neg (not_not_intro hK),
      if_neg (lt_irrefl _), List.take_length, List.drop_length]
    simp
  · intro hK hp
    have htl : (o.values_.take p).length = p := by
      rw [List.length_take]
      omega
    refine ⟨?_, ?_, ?_, ?_, ?_⟩
    · rw [IniOption.add_to_list_pos, if_neg (not_not_intro hK),
        if_neg (by omega)]
    · rw [List.length_append, List.length_append, List.length_take,
        List.length_drop]
      simp
      omega
    · rw [List.take_append_of_le_length (by rw [List.length_append]; omega),
        List.take_append_of_le_length (by omega), List.take_take]
      simp
    · rw [List.getElem?_append_left (by rw [List.length_append, htl]; simp)]
      nth_rewrite 2 [← htl]
      exact List.getElem?_concat_length _ _
    · rw [List.drop_left' (by rw [List.length_append, htl]; rfl)]

theorem C6_add_to_list_pos_witness :
    (IniOption.add_to_list_pos .string_e "x" 0 ⟨"n", .signed_e, [.signedV 3]⟩
      = .error (.bad_cast_exception "Cannot cast to requested type",
          ⟨"n", .signed_e, [.signedV 3]⟩)) ∧
    (IniOption.add_to_list_pos .signed_e (7 : Int) 2 ⟨"n", .signed_e, [.signedV 3]⟩
      = .error (.not_found_exception 2, ⟨"n", .signed_e, [.signedV 3]⟩)) ∧
    (IniOption.add_to_list_pos .signed_e (7 : Int) 1 ⟨"n", .signed_e, [.signedV 3]⟩
      = .ok ⟨"n", .signed_e, [.signedV 3, .signedV 7]⟩) ∧
    (IniOption.add_to_list_pos .signed_e (7 : Int) 0 ⟨"n", .signed_e, [.signedV 3]⟩
      = .ok ⟨"n", .signed_e, [.signedV 7, .signedV 3]⟩) := by
  refine ⟨?_, ?_, ?_, ?_⟩
  · exact (C6_add_to_list_pos .string_e ⟨"n", .signed_e, [.signedV 3]⟩ "x" 0).1
      (by decide)
  · exact (C6_add_to_list_pos .signed_e ⟨"n", .signed_e, [.signedV 3]⟩ 7 2).2.1
      rfl (by decide)
  · exact (C6_add_to_list_pos .signed_e ⟨"n", .signed_e, [.signedV 3]⟩ 7 1).2.2.1
      rfl rfl
  · exact ((C6_add_to_list_pos .signed_e ⟨"n", .signed_e, [.signedV 3]⟩ 7 0).2.2.2
      rfl (by decide)).1

/-- C7: under the homogeneity invariant, `remove_from_list` with a matching
kind removes exactly the first cell whose stored value equals the argument
(equality by value, not by position), leaves the sequence unchanged when no
cell equals it, and with a mismatched kind fails with `bad_cast_exception`
without modifying the sequence. -/
theorem C7_remove_from_list (K : option_type) (o : IniOption) (v : KindType K)
    (hinv : homog o) :
    (get_enum_type K = o.type_ →
      o.remove_from_list K v = .ok (some { o with values_ := o.values_.erase (mkCell K v) })) ∧
    (get_enum_type K = o.type_ → mkCell K v ∉ o.values_ →
      o.remove_from_list K v = .ok (some o)) ∧
    (get_enum_type K ≠ o.type_ →
      o.remove_from_list K v
        = .error (.bad_cast_exception "Cannot cast to requested type", o)) := by
  refine ⟨fun hK => remove_from_list_ok K o v hinv hK, ?_, ?_⟩
  · intro hK hmem
    rw [remove_from_list_ok K o v hinv hK, List.erase_of_not_mem hmem]
  · intro hK
    rw [IniOption.remove_from_list, if_pos hK]

theorem C7_remove_from_list_witness :
    (IniOption.remove_from_list .string_e "443"
        ⟨"n", .string_e, [.stringV "80", .stringV "443", .stringV "443"]⟩
      = .ok (some ⟨"n", .string_e, [.stringV "80", .stringV "443"]⟩)) ∧
    (IniOption.remove_from_list .string_e "no-such"
        ⟨"n", .string_e, [.stringV "80", .stringV "443", .stringV "443"]⟩
      = .ok (some ⟨"n", .string_e, [.stringV "80", .stringV "443", .stringV "443"]⟩)) ∧
    (IniOption.remove_from_list .signed_e (1 : Int)
        ⟨"n", .string_e, [.stringV "80", .stringV "443", .stringV "443"]⟩
      = .error (.bad_cast_exception "Cannot cast to requested type",
          ⟨"n", .string_e, [.stringV "80", .stringV "443", .stringV "443"]⟩)) := by
  refine ⟨?_, ?_, ?_⟩
  · exact (C7_remove_from_list .string_e
      ⟨"n", .string_e, [.stringV "80", .stringV "443", .stringV "443"]⟩ "443"
      (by decide)).1 rfl
  · exact (C7_remove_from_list .string_e
      ⟨"n", .string_e, [.stringV "80", .stringV "443", .stringV "443"]⟩ "no-such"
      (by decide)).2.1 rfl (by decide)
  · exact (C7_remove_from_list .signed_e
      ⟨"n", .string_e, [.stringV "80", .stringV "443", .stringV "443"]⟩ 1
      (by decide)).2.2 (by decide)

/-- C8: whenever `get_list`, either `add_to_list` overload or
`remove_from_list` throws (`bad_cast_exception` or `not_found_exception`),
the state carried at the throw site is exactly the receiver's state before
the call: none of these operations partially mutates state before failing. -/
theorem C8_failure_preserves_state (K : option_type) (o : IniOption)
    (e : IniError) (s : IniOption) :
    (IniOption.get_list K o = .error (e, s) → s = o) ∧
    (∀ v : KindType K, o.add_to_list K v = .error (e, s) → s = o) ∧
    (∀ (v : KindType K) (p : Nat),
      o.add_to_list_pos K v p = .error (e, s) → s = o) ∧
    (∀ v : KindType K, o.remove_from_list K v = .error (e, s) → s = o) := by
  refine ⟨?_, ?_, ?_, ?_⟩
  · intro h
    rw [IniOption.get_list] at h
    cases hv : o.values_ with
    | nil =>
      rw [hv] at h
      cases h
      rfl
    | cons c rest =>
      rw [hv] at h
      exact getListLoop_error_state K (c :: rest) [] o e s h
  · intro v h
    rw [IniOption.add_to_list] at h
    by_cases hK : get_enum_type K = o.type_
    · rw [if_neg (not_not_intro hK)] at h
      cases h
    · rw [if_pos hK] at h
      cases h
      rfl
  · intro v p h
    rw [IniOption.add_to_list_pos] at h
    by_cases hK : get_enum_type K = o.type_
    · rw [if_neg (not_not_intro hK)] at h
      by_cases hp : p > o.values_.length
      · rw [if_pos hp] at h
        cases h
        rfl
      · rw [if_neg hp] at h
        cases h
    · rw [if_pos hK] at h
      cases h
      rfl
  · intro v h
    rw [IniOption.remove_from_list] at h
    by_cases hK : get_enum_type K = o.type_
    · rw [if_neg (not_not_intro hK)] at h
      cases h
    · rw [if_pos hK] at h
      cases h
      rfl

theorem C8_failure_preserves_state_witness :
    ((⟨"n", .string_e, ([] : List Cell)⟩ : IniOption)
      = ⟨"n", .string_e, ([] : List Cell)⟩) ∧
    ((⟨"n", .string_e, [.stringV "x"]⟩ : IniOption)
      = ⟨"n", .string_e, [.stringV "x"]⟩) := by
  constructor
  · exact (C8_failure_preserves_state .string_e ⟨"n", .string_e, []⟩
      (.not_found_exception 0) ⟨"n", .string_e, []⟩).1 rfl
  · exact (C8_failure_preserves_state .signed_e ⟨"n", .string_e, [.stringV "x"]⟩
      (.bad_cast_exception "Cannot cast to requested type")
      ⟨"n", .string_e, [.stringV "x"]⟩).2.2.2 1 rfl

/-- C9: `set_list` completes without raising any error on every kind and
every list, including the empty one: the retag to K happens before the
appends, so the `bad_cast_exception` branch inside `add_to_list` is
unreachable for every appended element, and `set_list` never leaves the
option emptied by a failing append. -/
theorem C9_set_list_total (K : option_type) (l : List (KindType K))
    (o : IniOption) :
    ∃ o', o.set_list K l = .ok o' ∧ o'.values_.length = l.length :=
  ⟨⟨o.name_, get_enum_type K, l.map (mkCell K)⟩, set_list_eq K l o,
    List.length_map l (mkCell K)⟩

/-- C10: in `remove_from_list`, once the kind check against the option's
type has passed, the homogeneity invariant makes every per-element downcast
in the loop succeed, so the unchecked dereference `ptr->get()` is safe for
every visited cell: the loop never reaches its undefined-behaviour outcome
and the call returns normally. -/
theorem C10_no_null_deref (K : option_type) (o : IniOption) (v : KindType K)
    (hinv : homog o) (hK : get_enum_type K = o.type_) :
    (removeLoop K v o.values_).isSome = true ∧
    o.remove_from_list K v
      = .ok (some { o with values_ := o.values_.erase (mkCell K v) }) := by
  refine ⟨?_, remove_from_list_ok K o v hinv hK⟩
  rw [removeLoop_eq_erase K v o.values_ (fun c hc => by rw [hinv c hc, ← hK]; rfl)]
  rfl

theorem C10_no_null_deref_witness :
    (removeLoop .boolean_e true [.booleanV false, .booleanV true]).isSome = true ∧
    IniOption.remove_from_list .boolean_e true
        ⟨"n", .boolean_e, [.booleanV false, .booleanV true]⟩
      = .ok (some ⟨"n", .boolean_e, [.booleanV false]⟩) :=
  C10_no_null_deref .boolean_e ⟨"n", .boolean_e, [.booleanV false, .booleanV true]⟩
    true (by decide) rfl
